import Mathlib

/-!
Verification of the fmit crawler core (src/crawler.py) against its
natural-language specification.

The development shallowly embeds the persistent stores, the two extractors
and the `run_once` orchestrator as pure Lean functions.  External effects
(the rendering collaborator, the wall clock) are supplied by an `Env`
oracle; durable files are explicit values threaded through the run.

Modelling conventions, stated once:
* the checkpoint file content is a `List Char`; `none` means the file is
  absent.  `save_page_checkpoint` models `json.dump({"last_page": page})`
  into an `open(..., "w")` handle, which truncates and writes in place
  (crawler.py lines 283-285); `load_page_checkpoint` models lines 288-295.
  The parser accepts exactly the object layout that `json.dump` emits for
  this record; real `json.load` also accepts other spellings (extra
  whitespace, string-encoded numbers), which no theorem below touches.
* the parquet store is a `List Rec` of rows in file order; reading an
  absent or corrupt file yields the empty list (read_parquet_df).
* rendered pages are oracles: `Env.page p` is the list of `href`
  attributes of the anchors matched inside `.dictionary-items` on listing
  page `p` (`none` = all `max_retries` fetches raised, so
  `extract_page_links` returns `[]`, lines 340-395); `Env.detail u` is the
  triple of stripped texts that `extract_url_data` assembles for `u`
  (all-empty both for a sparse page and for exhausted retries, lines
  398-423, which the code itself cannot distinguish).
* `Env.clock k` is the elapsed wall-clock seconds observed by the k-th
  `time.time() - start_time` evaluation of the run.
* Python `set` iteration order is unspecified; sets whose iteration order
  the claims do not depend on are modelled as duplicate-free lists in
  insertion order.
-/

/-- A row of the parquet dataset: the four fixed columns of crawler.py. -/
structure Rec where
  url : String
  h1 : String
  h2 : String
  content : String
deriving DecidableEq, Repr

/-- The three content fields scraped from a detail page. -/
structure Detail where
  h1 : String
  h2 : String
  content : String
deriving DecidableEq, Repr

/-! ### Decimal rendering and parsing of integers (the JSON number layer) -/

/-- Low-order-first decimal digits of a natural number; `fuel` only bounds
the recursion and is irrelevant once it exceeds `n`. -/
def natDigitsAux : Nat → Nat → List Char
  | 0, _ => []
  | fuel + 1, n =>
    if n < 10 then [Nat.digitChar n]
    else Nat.digitChar (n % 10) :: natDigitsAux fuel (n / 10)

/-- Decimal digits of a natural number, most significant first. -/
def natChars (n : Nat) : List Char :=
  (natDigitsAux (n + 1) n).reverse

/-- Decimal rendering of an integer, as `json.dump` emits it. -/
def intChars (n : Int) : List Char :=
  if n < 0 then '-' :: natChars n.natAbs else natChars n.toNat

/-- Value of a decimal digit character, if it is one. -/
def charDigit? (c : Char) : Option Nat :=
  if '0' ≤ c ∧ c ≤ '9' then some (c.toNat - 48) else none

/-- Fold a digit string into a number, failing on any non-digit. -/
def foldDigits (l : List Char) : Option Nat :=
  l.foldl (fun acc c => acc.bind fun a => (charDigit? c).map fun d => a * 10 + d) (some 0)

/-- Parse a non-empty string of decimal digits. -/
def parseNatLit (l : List Char) : Option Nat :=
  if l = [] then none else foldDigits l

/-- Parse an optionally negated decimal integer literal. -/
def parseIntLit (l : List Char) : Option Int :=
  match l with
  | [] => none
  | c :: rest =>
    if c = '-' then (parseNatLit rest).map (fun m => -(Int.ofNat m))
    else (parseNatLit (c :: rest)).map Int.ofNat

/-! ### Checkpoint store (crawler.py lines 283-295) -/

/-- The opening bytes of the serialized checkpoint object, up to the value:
an opening brace, the quoted key `last_page`, a colon and a space. -/
def ckptHeader : List Char :=
  ['\x7b', '\"', 'l', 'a', 's', 't', '_', 'p', 'a', 'g', 'e', '\"', ':', ' ']

/-- The closing brace of the serialized checkpoint object. -/
def rbraceChar : Char := '\x7d'

/-- Bytes that `json.dump({"last_page": n}, f)` writes. -/
def encodeCkptChars (n : Int) : List Char :=
  ckptHeader ++ intChars n ++ [rbraceChar]

/-- Parse a checkpoint file content back to the stored integer, `none` on
any content not of the exact shape `save_page_checkpoint` writes. -/
def parseCkptChars (s : List Char) : Option Int :=
  if s.take ckptHeader.length = ckptHeader ∧ s.getLast? = some rbraceChar ∧
      ckptHeader.length + 1 ≤ s.length
  then parseIntLit ((s.drop ckptHeader.length).dropLast)
  else none

/-- Embedding of `load_page_checkpoint`: 0 when the file is absent, the
parsed value when it parses, and 0 when any exception is swallowed. -/
def load_page_checkpoint : Option (List Char) → Int
  | none => 0
  | some s => (parseCkptChars s).getD 0

/-- Embedding of `save_page_checkpoint`: the file state after the call.
The code opens the final path directly with mode "w" and dumps the JSON
into it; there is no temporary file and no rename. -/
def save_page_checkpoint (page : Int) : Option (List Char) :=
  some (encodeCkptChars page)

/-- States the checkpoint file can be left in when the process dies during
`save_page_checkpoint page`: the old state (killed before the open call
truncates), or any prefix of the new bytes (killed after the truncating
open, mid-write). -/
def IsCrashState (old : Option (List Char)) (page : Int) (st : Option (List Char)) : Prop :=
  st = old ∨ ∃ k, st = some ((encodeCkptChars page).take k)

/-! ### Output store (crawler.py lines 298-337) -/

/-- Embedding of `load_processed_urls`: the set of url keys of the durable
dataset, as a duplicate-free list. -/
def load_processed_urls (store : List Rec) : List String :=
  (store.map Rec.url).dedup

/-- Embedding of `append_to_parquet`, with the durable dataset passed
explicitly: no-op on an empty batch; otherwise incoming rows whose url is
already present in the old dataset are dropped, the remainder is
concatenated after the old rows and written back.  When the old dataset is
empty the incoming rows are written unfiltered. -/
def append_to_parquet (store rows : List Rec) : List Rec :=
  if rows = [] then store
  else if store = [] then rows
  else
    let fresh := rows.filter (fun r => decide (r.url ∉ store.map Rec.url))
    if fresh = [] then store else store ++ fresh

/-! ### Link extractor (crawler.py lines 340-395) -/

/-- Boolean list-prefix test. -/
def isPrefixB : List Char → List Char → Bool
  | [], _ => true
  | _ :: _, [] => false
  | c :: cs, d :: ds => c == d && isPrefixB cs ds

/-- Boolean substring test, the semantics of Python `needle in hay`. -/
def containsB (needle : List Char) : List Char → Bool
  | [] => isPrefixB needle []
  | c :: t => isPrefixB needle (c :: t) || containsB needle t

/-- Substring containment on strings. -/
def strContains (hay needle : String) : Bool :=
  containsB needle.data hay.data

/-- The href filter of `extract_page_links` line 378: plain substring
containment of the domain and of one of the two path markers. -/
def linkPred (h : String) : Bool :=
  strContains h "fmit.vn" && (strContains h "/glossary/" || strContains h "/tu-dien-quan-ly/")

/-- Embedding of `extract_page_links` as a function of the rendered page:
`anchors` is the list of href attributes of the matched anchor elements
(a `none` entry is a null attribute) and the outer `none` means every one
of the `max_retries` fetch attempts raised, in which case the function
returns the empty list.  A null or empty href is skipped (an empty string
also fails the substring test, so the truthiness guard is absorbed by the
filter); the kept hrefs are deduplicated with set semantics. -/
def extract_page_links (rendered : Option (List (Option String))) : List String :=
  match rendered with
  | none => []
  | some anchors => ((anchors.filterMap id).filter linkPred).dedup

/-- Modelled from the spec: the host component of an absolute URL, used
only to state C3 (the code has no such parsing).  Everything after the
first "://" and before the next slash; empty for a relative URL. -/
def specUrlHost (u : String) : String :=
  match specAfterSub "://".data u.data with
  | none => ""
  | some rest => String.mk (rest.takeWhile (fun c => c != '/'))
where
  /-- The suffix of `hay` after the first occurrence of `needle`. -/
  specAfterSub (needle : List Char) : List Char → Option (List Char)
    | [] => if needle = [] then some [] else none
    | c :: t =>
      if isPrefixB needle (c :: t) then some (List.drop needle.length (c :: t))
      else specAfterSub needle t

/-- Modelled from the spec: the path component of an absolute URL (from the
slash after the host, query and fragment stripped), used only to state C3. -/
def specUrlPath (u : String) : String :=
  match specUrlHost.specAfterSub "://".data u.data with
  | none => String.mk u.data
  | some rest =>
    String.mk ((rest.dropWhile (fun c => c != '/')).takeWhile (fun c => c != '?' && c != '#'))

/-- Boolean string-prefix test, to state the spec's path-prefix condition. -/
def strStartsWith (s p : String) : Bool :=
  isPrefixB p.data s.data

/-! ### Detail extractor (crawler.py lines 398-423) -/

/-- Environment oracle for one run: the rendered listing pages, the detail
triples, and the wall clock (indexed by how many times the run has read
the clock so far). -/
structure Env where
  page : Int → Option (List (Option String))
  detail : String → Detail
  clock : Nat → Int

/-- Embedding of `extract_url_data`: the url key is always populated; the
three content fields come from the page, and are all empty both when the
real page lacks the elements and when every retry raised. -/
def extract_url_data (env : Env) (u : String) : Rec :=
  ⟨u, (env.detail u).h1, (env.detail u).h2, (env.detail u).content⟩

/-! ### Run orchestrator (crawler.py lines 426-584) -/

/-- MAX_PAGES of crawler.py. -/
def MAX_PAGES : Int := 6729

/-- MAX_RUNTIME_SECONDS of crawler.py: 5.5 hours in seconds. -/
def MAX_RUNTIME_SECONDS : Int := 19800

/-- Result of one Phase-1 collection loop (crawler.py lines 469-489). -/
structure CollectRes where
  batchUrls : List String
  page : Int
  ckpt : Option (List Char)
  k : Nat
  attempted : List Int
deriving DecidableEq, Repr

/-- Phase 1 (lines 469-489): visit up to `countdown` consecutive listing
pages while the cursor stays within MAX_PAGES and the deadline has not
tripped; per page, extract links, keep those never seen before, save the
checkpoint unconditionally after extraction returns, advance the cursor.
`attempted` accumulates the pages on which link extraction was attempted
(and returned, which in the code it always does). -/
def collectLoop (env : Env) (processed allCollected : List String) :
    List String → Int → Nat → Option (List Char) → Nat → List Int → CollectRes
  | batchUrls, page, 0, ckpt, k, attempted => ⟨batchUrls, page, ckpt, k, attempted⟩
  | batchUrls, page, countdown + 1, ckpt, k, attempted =>
    if page > MAX_PAGES then ⟨batchUrls, page, ckpt, k, attempted⟩
    else if env.clock k > MAX_RUNTIME_SECONDS - 600 then ⟨batchUrls, page, ckpt, k + 1, attempted⟩
    else
      let hrefs := extract_page_links (env.page page)
      let fresh := hrefs.filter
        (fun h => decide (h ∉ processed ∧ h ∉ allCollected ∧ h ∉ batchUrls))
      collectLoop env processed allCollected (batchUrls ++ fresh) (page + 1) countdown
        (some (encodeCkptChars page)) (k + 1) (attempted ++ [page])

/-- Result of one Phase-2 extraction loop (crawler.py lines 506-539). -/
structure ExtractRes where
  store : List Rec
  batch : List Rec
  k : Nat
  fetched : List String
deriving DecidableEq, Repr

/-- Phase 2 (lines 511-539): per pending url, stop if the deadline (with
its 300-second margin) tripped, otherwise fetch the detail record; records
with at least one non-empty content field join the in-memory batch, which
is flushed to the store every 20 records; all-empty records are counted as
failures and dropped.  `fetched` accumulates every url passed to
`extract_url_data`. -/
def extractLoop (env : Env) : List String → List Rec → List Rec → Nat → List String → ExtractRes
  | [], batch, store, k, fetched => ⟨store, batch, k, fetched⟩
  | u :: rest, batch, store, k, fetched =>
    if env.clock k > MAX_RUNTIME_SECONDS - 300 then ⟨store, batch, k + 1, fetched⟩
    else
      let data := extract_url_data env u
      if data.h1 ≠ "" ∨ data.h2 ≠ "" ∨ data.content ≠ "" then
        let batch2 := batch ++ [data]
        if 20 ≤ batch2.length then
          extractLoop env rest [] (append_to_parquet store batch2) (k + 1) (fetched ++ [u])
        else
          extractLoop env rest batch2 store (k + 1) (fetched ++ [u])
      else extractLoop env rest batch store (k + 1) (fetched ++ [u])

/-- Observable outcome of a completed run: the durable stores plus the
instrumentation the claims talk about (pages link-extracted, urls sent to
the detail extractor). -/
structure RunResult where
  store : List Rec
  ckpt : Option (List Char)
  attempted : List Int
  fetched : List String
deriving DecidableEq, Repr

/-- The `while True` loop of `run_once` (lines 447-568).  `fuel` bounds the
number of outer iterations; `none` means the bound was hit before the code
itself stopped (claims about completed runs condition on `some`).  Checks,
in source order: the 600-second-margin deadline at the loop head; crawl
completion (`current_page > MAX_PAGES`); Phase 1; on an empty batch,
re-save the checkpoint for the last completed page and continue; otherwise
Phase 2, flush the remaining batch, and re-check the deadline. -/
def runLoop (env : Env) (processed : List String) :
    List String → List Rec → Option (List Char) → Nat → List Int → List String → Nat →
    Option RunResult
  | _, _, _, _, _, _, 0 => none
  | allCollected, store, ckpt, k, attempted, fetched, fuel + 1 =>
    if env.clock k > MAX_RUNTIME_SECONDS - 600 then some ⟨store, ckpt, attempted, fetched⟩
    else
      let cur := max (load_page_checkpoint ckpt + 1) 1
      if cur > MAX_PAGES then some ⟨store, ckpt, attempted, fetched⟩
      else
        let c := collectLoop env processed allCollected [] cur 10 ckpt (k + 1) []
        let allCollected2 := allCollected ++ c.batchUrls
        let attempted2 := attempted ++ c.attempted
        if c.batchUrls = [] then
          let ckpt2 := if c.page ≤ MAX_PAGES then save_page_checkpoint (c.page - 1) else c.ckpt
          runLoop env processed allCollected2 store ckpt2 c.k attempted2 fetched fuel
        else
          let e := extractLoop env c.batchUrls [] store c.k fetched
          let store2 := if e.batch = [] then e.store else append_to_parquet e.store e.batch
          if env.clock e.k > MAX_RUNTIME_SECONDS - 600 then
            some ⟨store2, c.ckpt, attempted2, e.fetched⟩
          else runLoop env processed allCollected2 store2 c.ckpt (e.k + 1) attempted2 e.fetched fuel

/-- Embedding of `run_once` on given initial durable state: load the
processed-url set once, then drive batches until a stop condition. -/
def run_once (env : Env) (store0 : List Rec) (ckpt0 : Option (List Char)) (fuel : Nat) :
    Option RunResult :=
  runLoop env (load_processed_urls store0) [] store0 ckpt0 0 [] [] fuel

/-! ### Concrete scenario environments used by counterexamples and witnesses -/

/-- A glossary detail url of the crawled site. -/
def cURL : String := "https://fmit.vn/en/glossary/c1"

/-- Environment for the failed-extraction scenarios: every listing page
renders one anchor to `cURL`, every detail fetch exhausts its retries
(all-empty record), and the clock reads 0 for the first two observations
and 19300 elapsed seconds afterwards — past the 600-second collection
margin but inside the 300-second extraction margin. -/
def envE : Env :=
  ⟨fun _ => some [some cURL], fun _ => ⟨"", "", ""⟩, fun k => if k ≤ 1 then 0 else 19300⟩

/-- The completed-run outcome of `run_once envE [] none`: page 1 collected,
`cURL` detail-fetched with an all-empty result and dropped, store empty. -/
def c1res : RunResult := ⟨[], some (encodeCkptChars 1), [1], [cURL]⟩

/-- The outcome of a second `envE` run resuming from `c1res`: page 2 yields
`cURL` again and it is detail-fetched a second time. -/
def c2res : RunResult := ⟨[], some (encodeCkptChars 2), [2], [cURL]⟩

/-- A record already present in the store for the no-redundant-fetch
witness. -/
def recC : Rec := ⟨cURL, "Content1", "", ""⟩

/-- The completed-run outcome of `run_once envE [recC] none`: page 1 yields
only the already-stored `cURL`, so nothing is detail-fetched. -/
def c7res : RunResult := ⟨[recC], some (encodeCkptChars 1), [1], []⟩

/-- Two glossary urls for the collection-phase counterexample. -/
def aURL : String := "https://fmit.vn/glossary/a"

/-- Second glossary url for the collection-phase counterexample. -/
def bURL : String := "https://fmit.vn/glossary/b"

/-- Environment whose listing pages all render anchors to `aURL` and
`bURL` and whose clock never advances: no stop condition other than the
page count can trip during collection. -/
def envMany : Env :=
  ⟨fun _ => some [some aURL, some bURL], fun _ => ⟨"t", "", ""⟩, fun _ => 0⟩

/-- A url passing the code's substring filter whose host is not the target
domain. -/
def evilURL : String := "https://evil.example/x?q=fmit.vn/glossary/"

/-- A real-shaped catalog url: host correct, but its path begins with
`/en/glossary/`, not `/glossary/`. -/
def legitURL : String := "https://fmit.vn/en/glossary/scrum"

/-! ## Theorems

First the number/checkpoint layer, then the store and extractor claims,
then the orchestrator claims. -/

theorem natDigitsAux_succ (fuel n : Nat) :
    natDigitsAux (fuel + 1) n =
      if n < 10 then [Nat.digitChar n] else Nat.digitChar (n % 10) :: natDigitsAux fuel (n / 10) :=
  rfl

theorem natDigitsAux_fuel_irrel : ∀ f g n, n < f → n < g → natDigitsAux f n = natDigitsAux g n
  | 0, _, _, hf, _ => absurd hf (by omega)
  | _ + 1, 0, _, _, hg => absurd hg (by omega)
  | f + 1, g + 1, n, hf, hg => by
    rw [natDigitsAux_succ, natDigitsAux_succ]
    by_cases h : n < 10
    · rw [if_pos h, if_pos h]
    · have hd : n / 10 < n := Nat.div_lt_self (by omega) (by omega)
      have hrec := natDigitsAux_fuel_irrel f g (n / 10) (by omega) (by omega)
      rw [if_neg h, if_neg h, hrec]

theorem natChars_unfold (n : Nat) :
    natChars n =
      if n < 10 then [Nat.digitChar n] else natChars (n / 10) ++ [Nat.digitChar (n % 10)] := by
  have hu : natChars n = (natDigitsAux (n + 1) n).reverse := rfl
  rw [hu, natDigitsAux_succ]
  by_cases h : n < 10
  · rw [if_pos h, if_pos h]
    rfl
  · have hd : n / 10 < n := Nat.div_lt_self (by omega) (by omega)
    rw [if_neg h, if_neg h, List.reverse_cons,
      natDigitsAux_fuel_irrel n (n / 10 + 1) (n / 10) (by omega) (by omega)]
    rfl

theorem charDigit?_digitChar (m : Nat) (hm : m < 10) : charDigit? (Nat.digitChar m) = some m := by
  interval_cases m <;> decide

theorem digitChar_isDigit (m : Nat) (hm : m < 10) :
    '0' ≤ Nat.digitChar m ∧ Nat.digitChar m ≤ '9' := by
  interval_cases m <;> decide

theorem foldDigits_natChars (n : Nat) : foldDigits (natChars n) = some n := by
  induction n using Nat.strong_induction_on with
  | _ n ih =>
    rw [natChars_unfold]
    by_cases h : n < 10
    · rw [if_pos h]
      simp [foldDigits, charDigit?_digitChar n h]
    · rw [if_neg h]
      have hd : n / 10 < n := Nat.div_lt_self (by omega) (by omega)
      have ihd := ih (n / 10) hd
      simp only [foldDigits] at ihd ⊢
      rw [List.foldl_append, ihd]
      simp [charDigit?_digitChar (n % 10) (by omega)]
      omega

theorem natChars_ne_nil (n : Nat) : natChars n ≠ [] := by
  rw [natChars_unfold]; split <;> simp

theorem parseNatLit_natChars (n : Nat) : parseNatLit (natChars n) = some n := by
  rw [parseNatLit, if_neg (natChars_ne_nil n)]
  exact foldDigits_natChars n

theorem mem_natChars_digit (n : Nat) : ∀ c ∈ natChars n, '0' ≤ c ∧ c ≤ '9' := by
  induction n using Nat.strong_induction_on with
  | _ n ih =>
    intro c hc
    rw [natChars_unfold] at hc
    by_cases h : n < 10
    · rw [if_pos h] at hc
      simp only [List.mem_singleton] at hc
      subst hc; exact digitChar_isDigit n h
    · rw [if_neg h] at hc
      rcases List.mem_append.1 hc with h1 | h1
      · exact ih (n / 10) (Nat.div_lt_self (by omega) (by omega)) c h1
      · simp only [List.mem_singleton] at h1
        subst h1; exact digitChar_isDigit _ (by omega)

theorem mem_intChars_ne_rbrace (n : Int) : ∀ c ∈ intChars n, c ≠ rbraceChar := by
  intro c hc hcr
  have hdig : '0' ≤ c ∧ c ≤ '9' → False := by
    subst hcr; decide
  unfold intChars at hc
  split at hc
  · rcases List.mem_cons.1 hc with h1 | h1
    · subst hcr; revert h1; decide
    · exact hdig (mem_natChars_digit _ c h1)
  · exact hdig (mem_natChars_digit _ c hc)

theorem parseIntLit_cons (c : Char) (rest : List Char) :
    parseIntLit (c :: rest) =
      if c = '-' then (parseNatLit rest).map (fun m => -(Int.ofNat m))
      else (parseNatLit (c :: rest)).map Int.ofNat :=
  rfl

theorem parseIntLit_intChars (n : Int) : parseIntLit (intChars n) = some n := by
  unfold intChars
  by_cases h : n < 0
  · rw [if_pos h, parseIntLit_cons, if_pos rfl, parseNatLit_natChars]
    simp only [Option.map_some', Int.ofNat_eq_coe, Option.some.injEq]
    omega
  · rw [if_neg h]
    obtain ⟨c, cs, hcs⟩ : ∃ c cs, natChars n.toNat = c :: cs := by
      cases h' : natChars n.toNat with
      | nil => exact absurd h' (natChars_ne_nil _)
      | cons c cs => exact ⟨c, cs, rfl⟩
    have hd := mem_natChars_digit n.toNat c (by rw [hcs]; exact List.mem_cons_self _ _)
    have hcne : c ≠ '-' := by
      intro he
      rw [he] at hd
      revert hd; decide
    rw [hcs, parseIntLit_cons, if_neg hcne, ← hcs, parseNatLit_natChars]
    simp only [Option.map_some', Int.ofNat_eq_coe, Option.some.injEq]
    omega

theorem parseCkptChars_encode (n : Int) : parseCkptChars (encodeCkptChars n) = some n := by
  have hassoc : encodeCkptChars n = ckptHeader ++ (intChars n ++ [rbraceChar]) := by
    unfold encodeCkptChars; rw [List.append_assoc]
  have h1 : (encodeCkptChars n).take ckptHeader.length = ckptHeader := by
    rw [hassoc]; exact List.take_left ckptHeader _
  have h2 : (encodeCkptChars n).getLast? = some rbraceChar := by
    unfold encodeCkptChars
    exact List.getLast?_concat _
  have h3 : ckptHeader.length + 1 ≤ (encodeCkptChars n).length := by
    unfold encodeCkptChars
    simp only [List.length_append, List.length_singleton]
    omega
  unfold parseCkptChars
  rw [if_pos ⟨h1, h2, h3⟩, hassoc, List.drop_left, List.dropLast_concat]
  exact parseIntLit_intChars n

theorem load_save_roundtrip (n : Int) :
    load_page_checkpoint (save_page_checkpoint n) = n := by
  simp [load_page_checkpoint, save_page_checkpoint, parseCkptChars_encode]

theorem mem_ckptHeader_ne_rbrace : ∀ c ∈ ckptHeader, c ≠ rbraceChar := by decide

theorem parseCkpt_take_eq_none (n : Int) (k : Nat) (hk : k < (encodeCkptChars n).length) :
    parseCkptChars ((encodeCkptChars n).take k) = none := by
  have hlen : ((encodeCkptChars n).take k).length = k := by
    rw [List.length_take]; omega
  by_cases h14 : k < ckptHeader.length + 1
  · unfold parseCkptChars
    rw [if_neg]
    rintro ⟨-, -, h3⟩
    rw [hlen] at h3
    omega
  · have hbody : encodeCkptChars n = (ckptHeader ++ intChars n) ++ [rbraceChar] := rfl
    have hk1 : k - 1 < (ckptHeader ++ intChars n).length := by
      have hl : (encodeCkptChars n).length = (ckptHeader ++ intChars n).length + 1 := by
        rw [hbody]
        simp only [List.length_append, List.length_singleton]
      omega
    obtain ⟨c, hc⟩ : ∃ c, (ckptHeader ++ intChars n)[k - 1]? = some c := by
      rw [List.getElem?_eq_getElem hk1]; exact ⟨_, rfl⟩
    have hclast : ((encodeCkptChars n).take k).getLast? = some c := by
      rw [List.getLast?_eq_getElem?, hlen, List.getElem?_take_of_lt (by omega), hbody,
        List.getElem?_append_left hk1, hc]
    have hcne : c ≠ rbraceChar := by
      rcases List.mem_append.1 (List.getElem?_mem hc) with h1 | h1
      · exact mem_ckptHeader_ne_rbrace c h1
      · exact mem_intChars_ne_rbrace n c h1
    unfold parseCkptChars
    rw [if_neg]
    rintro ⟨-, h2, -⟩
    rw [hclast] at h2
    exact hcne (Option.some.inj h2)

/-- C2, counterexample: an interruption of `save_page_checkpoint 5` over an
old checkpoint of 3 can leave the first four bytes of the new content;
that state is a reachable crash state, and `load_page_checkpoint` of it
yields neither the old value 3 nor the new value 5 (it parses as nothing
and degrades to 0), refuting the claim that a crash leaves either the old
or the new value.  The write is a single in-place truncate-and-write with
no temporary file or rename. -/
theorem c2_counterexample :
    IsCrashState (some (encodeCkptChars 3)) 5 (some ((encodeCkptChars 5).take 4)) ∧
    load_page_checkpoint (some ((encodeCkptChars 5).take 4)) ≠
      load_page_checkpoint (some (encodeCkptChars 3)) ∧
    load_page_checkpoint (some ((encodeCkptChars 5).take 4)) ≠ 5 :=
  ⟨Or.inr ⟨4, rfl⟩, by decide, by decide⟩

/-- C2, amended: `save_page_checkpoint` writes the encoded value directly
to the checkpoint path (truncate then write, no temporary file and no
rename), so an interruption can leave a partially-written value; because
`load_page_checkpoint` swallows parse failures, every crash state loads as
the old value, the new value, or 0 — corruption is silently converted to
"start over", it never fails to parse loudly. -/
theorem c2_amended (old : Option (List Char)) (page : Int) (st : Option (List Char))
    (h : IsCrashState old page st) :
    load_page_checkpoint st = load_page_checkpoint old ∨
    load_page_checkpoint st = page ∨ load_page_checkpoint st = 0 := by
  rcases h with rfl | ⟨k, rfl⟩
  · exact Or.inl rfl
  · by_cases hk : k < (encodeCkptChars page).length
    · right; right
      simp [load_page_checkpoint, parseCkpt_take_eq_none page k hk]
    · right; left
      rw [List.take_of_length_le (by omega)]
      simp [load_page_checkpoint, parseCkptChars_encode]

/-- C2, witness for the amended theorem at the crash state of the
counterexample's shape. -/
theorem c2_amended_witness :
    load_page_checkpoint (some ((encodeCkptChars 5).take 4)) =
      load_page_checkpoint (some (encodeCkptChars 3)) ∨
    load_page_checkpoint (some ((encodeCkptChars 5).take 4)) = 5 ∨
    load_page_checkpoint (some ((encodeCkptChars 5).take 4)) = 0 :=
  c2_amended (some (encodeCkptChars 3)) 5 (some ((encodeCkptChars 5).take 4)) (Or.inr ⟨4, rfl⟩)

/-- C9, counterexample: a checkpoint file storing the negative integer -5
is parsed successfully and returned as-is by `load_page_checkpoint`; the
claim that any content not mapping the field to a non-negative integer is
treated as absent (yielding 0) is false — `int(...)` performs no sign
check. -/
theorem c9_counterexample :
    load_page_checkpoint (some (encodeCkptChars (-5))) = -5 ∧
    load_page_checkpoint (some (encodeCkptChars (-5))) ≠ 0 := by decide

/-- C9, amended: `load_page_checkpoint` returns 0 when the file is absent
and when its content fails to parse (the exception is swallowed, never
propagated), but any integer the writer's format can carry — including a
negative one — is returned exactly as stored, with no non-negativity
check. -/
theorem c9_amended :
    load_page_checkpoint none = 0 ∧
    load_page_checkpoint (some ['c', 'o', 'r', 'r', 'u', 'p', 't']) = 0 ∧
    ∀ n : Int, load_page_checkpoint (some (encodeCkptChars n)) = n := by
  refine ⟨rfl, by decide, fun n => ?_⟩
  simp [load_page_checkpoint, parseCkptChars_encode]

theorem append_to_parquet_nil_store (rows : List Rec) : append_to_parquet [] rows = rows := by
  by_cases h : rows = [] <;> simp [append_to_parquet, h]

/-- C5, confirmed: starting from an empty store, appending any sequence R
(duplicate keys allowed) makes `load_processed_urls` return exactly the
distinct keys of R, and appending the same R a second time leaves the
durable dataset unchanged (every incoming key is already present, the
filtered batch is empty, and the function returns without writing). -/
theorem c5_idempotent_append (R : List Rec) (k : String) :
    (k ∈ load_processed_urls (append_to_parquet [] R) ↔ k ∈ R.map Rec.url) ∧
    append_to_parquet (append_to_parquet [] R) R = append_to_parquet [] R := by
  rw [append_to_parquet_nil_store]
  refine ⟨by simp [load_processed_urls, List.mem_dedup], ?_⟩
  by_cases h : R = []
  · subst h; simp [append_to_parquet]
  · have hfil : R.filter (fun r => decide (r.url ∉ R.map Rec.url)) = [] := by
      rw [List.filter_eq_nil_iff]
      intro r hr
      simp only [decide_not, Bool.not_eq_true', decide_eq_false_iff_not, not_not]
      exact List.mem_map_of_mem Rec.url hr
    simp only [append_to_parquet, if_neg h]
    rw [hfil]
    simp

/-- C10, confirmed: `append_to_parquet` deduplicates the incoming batch
only against keys already durable, never within the batch itself; a batch
holding two records with a shared key that the store lacks contributes
both rows, so the dataset afterwards holds at least two rows under that
key. -/
theorem c10_batch_keeps_duplicates (store rows : List Rec) (k : String)
    (hk : k ∉ store.map Rec.url)
    (h2 : 2 ≤ (rows.filter (fun r => decide (r.url = k))).length) :
    2 ≤ ((append_to_parquet store rows).filter (fun r => decide (r.url = k))).length := by
  have hrows : rows ≠ [] := by
    intro h; rw [h] at h2; simp at h2
  by_cases hst : store = []
  · subst hst; rw [append_to_parquet_nil_store]; exact h2
  · have hsub : rows.filter (fun r => decide (r.url = k)) =
        (rows.filter (fun r => decide (r.url ∉ store.map Rec.url))).filter
          (fun r => decide (r.url = k)) := by
      rw [List.filter_filter]
      refine (List.filter_congr ?_).symm
      intro r hr
      by_cases hrk : r.url = k
      · rw [hrk]; simp [hk]
      · simp [hrk]
    have hne : rows.filter (fun r => decide (r.url ∉ store.map Rec.url)) ≠ [] := by
      intro h0
      rw [hsub, h0] at h2
      simp at h2
    simp only [append_to_parquet, if_neg hrows, if_neg hst]
    rw [if_neg hne, List.filter_append]
    calc 2 ≤ (rows.filter (fun r => decide (r.url = k))).length := h2
      _ = ((rows.filter (fun r => decide (r.url ∉ store.map Rec.url))).filter
            (fun r => decide (r.url = k))).length := by rw [hsub]
      _ ≤ _ := by simp

/-- C10, witness at a store holding one other key and a batch with two
records sharing the absent key. -/
theorem c10_batch_keeps_duplicates_witness :
    2 ≤ ((append_to_parquet [⟨"https://fmit.vn/glossary/z", "z", "", ""⟩]
        [⟨"https://fmit.vn/glossary/k", "a", "", ""⟩,
         ⟨"https://fmit.vn/glossary/k", "b", "", ""⟩]).filter
        (fun r => decide (r.url = "https://fmit.vn/glossary/k"))).length :=
  c10_batch_keeps_duplicates _ _ "https://fmit.vn/glossary/k" (by decide) (by decide)

/-- C3, counterexample: the href filter is substring containment, not a
host-equality plus path-prefix check.  A url on a foreign host whose query
string mentions the domain and marker passes the filter; conversely the
catalog's own english-mirror urls have path `/en/glossary/...`, which does
not begin with either accepted prefix, yet they are (correctly) kept.
Both refute the claim's characterisation of the result set. -/
theorem c3_counterexample :
    evilURL ∈ extract_page_links (some [some evilURL, some legitURL]) ∧
    specUrlHost evilURL ≠ "fmit.vn" ∧
    legitURL ∈ extract_page_links (some [some evilURL, some legitURL]) ∧
    specUrlHost legitURL = "fmit.vn" ∧
    strStartsWith (specUrlPath legitURL) "/glossary/" = false ∧
    strStartsWith (specUrlPath legitURL) "/tu-dien-quan-ly/" = false := by decide

/-- C3, amended: every url kept by `extract_page_links` contains
"fmit.vn" as a substring and contains "/glossary/" or "/tu-dien-quan-ly/"
as a substring (no host or path-prefix parsing is performed), and the
result contains no duplicates. -/
theorem c3_amended (rendered : Option (List (Option String))) :
    (extract_page_links rendered).Nodup ∧
    ∀ u ∈ extract_page_links rendered, linkPred u = true := by
  cases rendered with
  | none => simp [extract_page_links]
  | some anchors =>
    refine ⟨List.nodup_dedup _, fun u hu => ?_⟩
    simp only [extract_page_links] at hu
    rw [List.mem_dedup] at hu
    exact (List.mem_filter.1 hu).2

/-- C3, witness for the amended theorem: a kept catalog url satisfies the
substring filter. -/
theorem c3_amended_witness : linkPred legitURL = true :=
  (c3_amended (some [some legitURL])).2 legitURL (by decide)

/-! ### Orchestrator lemmas -/

theorem collectLoop_zero (env : Env) (proc all bu : List String) (page : Int)
    (ck : Option (List Char)) (k : Nat) (att : List Int) :
    collectLoop env proc all bu page 0 ck k att = ⟨bu, page, ck, k, att⟩ :=
  rfl

theorem collectLoop_succ (env : Env) (proc all bu : List String) (page : Int) (n : Nat)
    (ck : Option (List Char)) (k : Nat) (att : List Int) :
    collectLoop env proc all bu page (n + 1) ck k att =
      if page > MAX_PAGES then ⟨bu, page, ck, k, att⟩
      else if env.clock k > MAX_RUNTIME_SECONDS - 600 then ⟨bu, page, ck, k + 1, att⟩
      else
        collectLoop env proc all
          (bu ++ (extract_page_links (env.page page)).filter
            (fun h => decide (h ∉ proc ∧ h ∉ all ∧ h ∉ bu)))
          (page + 1) n (some (encodeCkptChars page)) (k + 1) (att ++ [page]) :=
  rfl

theorem range_map_shift (p : Int) (m : Nat) :
    [p] ++ (List.range m).map (fun i : Nat => (p + 1) + (i : Int)) =
      (List.range (m + 1)).map (fun i : Nat => p + (i : Int)) := by
  rw [List.singleton_append, List.range_succ_eq_map, List.map_cons, List.map_map]
  congr 1
  · simp
  · apply List.map_congr_left
    intro i hi
    simp only [Function.comp_apply]
    push_cast
    ring

theorem collectLoop_shape (env : Env) (proc all : List String) :
    ∀ (n : Nat) (bu : List String) (p : Int) (ck : Option (List Char)) (k : Nat) (att : List Int),
    ∃ m : Nat, m ≤ n ∧
      (collectLoop env proc all bu p n ck k att).page = p + m ∧
      (collectLoop env proc all bu p n ck k att).attempted =
        att ++ (List.range m).map (fun i : Nat => p + (i : Int)) ∧
      (collectLoop env proc all bu p n ck k att).ckpt =
        (if m = 0 then ck else some (encodeCkptChars (p + m - 1)))
  | 0, bu, p, ck, k, att => ⟨0, by simp [collectLoop_zero]⟩
  | n + 1, bu, p, ck, k, att => by
    rw [collectLoop_succ]
    by_cases h1 : p > MAX_PAGES
    · rw [if_pos h1]
      exact ⟨0, by simp⟩
    · rw [if_neg h1]
      by_cases h2 : env.clock k > MAX_RUNTIME_SECONDS - 600
      · rw [if_pos h2]
        exact ⟨0, by simp⟩
      · rw [if_neg h2]
        obtain ⟨m, hm, hpage, hatt, hck⟩ :=
          collectLoop_shape env proc all n
            (bu ++ (extract_page_links (env.page p)).filter
              (fun h => decide (h ∉ proc ∧ h ∉ all ∧ h ∉ bu)))
            (p + 1) (some (encodeCkptChars p)) (k + 1) (att ++ [p])
        refine ⟨m + 1, by omega, ?_, ?_, ?_⟩
        · rw [hpage]
          push_cast
          ring
        · rw [hatt, List.append_assoc, range_map_shift]
        · rw [hck, if_neg (by omega : ¬m + 1 = 0)]
          by_cases hm0 : m = 0
          · subst hm0
            rw [if_pos rfl]
            congr 2
            push_cast
            ring
          · rw [if_neg hm0]
            congr 2
            push_cast
            ring

theorem collectLoop_attempted_full (env : Env) (proc all : List String)
    (hclk : ∀ j, env.clock j ≤ MAX_RUNTIME_SECONDS - 600) :
    ∀ (n : Nat) (bu : List String) (p : Int) (ck : Option (List Char)) (k : Nat) (att : List Int),
    p + n ≤ MAX_PAGES + 1 →
    (collectLoop env proc all bu p n ck k att).attempted =
      att ++ (List.range n).map (fun i : Nat => p + (i : Int))
  | 0, bu, p, ck, k, att, hp => by simp [collectLoop_zero]
  | n + 1, bu, p, ck, k, att, hp => by
    rw [collectLoop_succ, if_neg (by push_cast at hp ⊢; omega),
      if_neg (by have := hclk k; omega),
      collectLoop_attempted_full env proc all hclk n _ (p + 1) _ (k + 1) (att ++ [p])
        (by push_cast at hp ⊢; omega),
      List.append_assoc, range_map_shift]

theorem extract_page_links_nodup (rendered : Option (List (Option String))) :
    (extract_page_links rendered).Nodup := by
  cases rendered with
  | none => simp [extract_page_links]
  | some anchors => exact List.nodup_dedup _

theorem collectLoop_batch_mem (env : Env) (proc all : List String) :
    ∀ (n : Nat) (bu : List String) (p : Int) (ck : Option (List Char)) (k : Nat) (att : List Int)
      (v : String), v ∈ (collectLoop env proc all bu p n ck k att).batchUrls →
      v ∈ bu ∨ (v ∉ proc ∧ v ∉ all)
  | 0, bu, p, ck, k, att, v, hv => Or.inl hv
  | n + 1, bu, p, ck, k, att, v, hv => by
    rw [collectLoop_succ] at hv
    by_cases h1 : p > MAX_PAGES
    · rw [if_pos h1] at hv
      exact Or.inl hv
    · rw [if_neg h1] at hv
      by_cases h2 : env.clock k > MAX_RUNTIME_SECONDS - 600
      · rw [if_pos h2] at hv
        exact Or.inl hv
      · rw [if_neg h2] at hv
        rcases collectLoop_batch_mem env proc all n _ (p + 1) _ (k + 1) (att ++ [p]) v hv with
          h | h
        · rcases List.mem_append.1 h with h' | h'
          · exact Or.inl h'
          · have hp := List.mem_filter.1 h'
            have hp2 := hp.2
            simp only [decide_eq_true_eq] at hp2
            exact Or.inr ⟨hp2.1, hp2.2.1⟩
        · exact Or.inr h

theorem collectLoop_batch_nodup (env : Env) (proc all : List String) :
    ∀ (n : Nat) (bu : List String) (p : Int) (ck : Option (List Char)) (k : Nat) (att : List Int),
      bu.Nodup → (collectLoop env proc all bu p n ck k att).batchUrls.Nodup
  | 0, bu, p, ck, k, att, hbu => hbu
  | n + 1, bu, p, ck, k, att, hbu => by
    rw [collectLoop_succ]
    by_cases h1 : p > MAX_PAGES
    · rw [if_pos h1]; exact hbu
    · rw [if_neg h1]
      by_cases h2 : env.clock k > MAX_RUNTIME_SECONDS - 600
      · rw [if_pos h2]; exact hbu
      · rw [if_neg h2]
        refine collectLoop_batch_nodup env proc all n _ (p + 1) _ (k + 1) (att ++ [p]) ?_
        refine hbu.append ((extract_page_links_nodup _).filter _) ?_
        intro a ha hafr
        have := (List.mem_filter.1 hafr).2
        simp only [decide_eq_true_eq] at this
        exact this.2.2 ha

theorem extractLoop_nil (env : Env) (batch store : List Rec) (k : Nat) (fetched : List String) :
    extractLoop env [] batch store k fetched = ⟨store, batch, k, fetched⟩ :=
  rfl

theorem extractLoop_cons (env : Env) (u : String) (rest : List String) (batch store : List Rec)
    (k : Nat) (fetched : List String) :
    extractLoop env (u :: rest) batch store k fetched =
      if env.clock k > MAX_RUNTIME_SECONDS - 300 then ⟨store, batch, k + 1, fetched⟩
      else if (extract_url_data env u).h1 ≠ "" ∨ (extract_url_data env u).h2 ≠ "" ∨
          (extract_url_data env u).content ≠ "" then
        if 20 ≤ (batch ++ [extract_url_data env u]).length then
          extractLoop env rest [] (append_to_parquet store (batch ++ [extract_url_data env u]))
            (k + 1) (fetched ++ [u])
        else extractLoop env rest (batch ++ [extract_url_data env u]) store (k + 1) (fetched ++ [u])
      else extractLoop env rest batch store (k + 1) (fetched ++ [u]) :=
  rfl

theorem extractLoop_fetched_mem (env : Env) :
    ∀ (urls : List String) (batch store : List Rec) (k : Nat) (fetched : List String) (v : String),
      v ∈ (extractLoop env urls batch store k fetched).fetched → v ∈ fetched ∨ v ∈ urls
  | [], batch, store, k, fetched, v, hv => Or.inl hv
  | u :: rest, batch, store, k, fetched, v, hv => by
    rw [extractLoop_cons] at hv
    split_ifs at hv with h1 h2 h3
    · exact Or.inl hv
    · rcases extractLoop_fetched_mem env rest _ _ (k + 1) (fetched ++ [u]) v hv with h | h
      · rcases List.mem_append.1 h with h' | h'
        · exact Or.inl h'
        · exact Or.inr (by simp at h'; simp [h'])
      · exact Or.inr (List.mem_cons_of_mem u h)
    · rcases extractLoop_fetched_mem env rest _ _ (k + 1) (fetched ++ [u]) v hv with h | h
      · rcases List.mem_append.1 h with h' | h'
        · exact Or.inl h'
        · exact Or.inr (by simp at h'; simp [h'])
      · exact Or.inr (List.mem_cons_of_mem u h)
    · rcases extractLoop_fetched_mem env rest _ _ (k + 1) (fetched ++ [u]) v hv with h | h
      · rcases List.mem_append.1 h with h' | h'
        · exact Or.inl h'
        · exact Or.inr (by simp at h'; simp [h'])
      · exact Or.inr (List.mem_cons_of_mem u h)

theorem extractLoop_fetched_nodup (env : Env) :
    ∀ (urls : List String) (batch store : List Rec) (k : Nat) (fetched : List String),
      fetched.Nodup → urls.Nodup → (∀ v ∈ urls, v ∉ fetched) →
      (extractLoop env urls batch store k fetched).fetched.Nodup
  | [], batch, store, k, fetched, hf, hu, hd => hf
  | u :: rest, batch, store, k, fetched, hf, hu, hd => by
    have hf2 : (fetched ++ [u]).Nodup := by
      refine hf.append (List.nodup_singleton u) ?_
      intro a ha ha'
      rw [List.mem_singleton] at ha'
      exact hd u (List.mem_cons_self u rest) (ha' ▸ ha)
    have hu2 : rest.Nodup := hu.of_cons
    have hd2 : ∀ v ∈ rest, v ∉ fetched ++ [u] := by
      intro v hv hv'
      rcases List.mem_append.1 hv' with h' | h'
      · exact hd v (List.mem_cons_of_mem u hv) h'
      · rw [List.mem_singleton] at h'
        subst h'
        exact (List.nodup_cons.1 hu).1 hv
    rw [extractLoop_cons]
    split_ifs with h1 h2 h3
    · exact hf
    · exact extractLoop_fetched_nodup env rest _ _ (k + 1) (fetched ++ [u]) hf2 hu2 hd2
    · exact extractLoop_fetched_nodup env rest _ _ (k + 1) (fetched ++ [u]) hf2 hu2 hd2
    · exact extractLoop_fetched_nodup env rest _ _ (k + 1) (fetched ++ [u]) hf2 hu2 hd2

theorem append_to_parquet_pres (P : Rec → Prop) (store rows : List Rec)
    (hs : ∀ r ∈ store, P r) (hr : ∀ r ∈ rows, P r) :
    ∀ r ∈ append_to_parquet store rows, P r := by
  intro r hrmem
  by_cases h1 : rows = []
  · rw [append_to_parquet, if_pos h1] at hrmem
    exact hs r hrmem
  · by_cases h2 : store = []
    · rw [append_to_parquet, if_neg h1, if_pos h2] at hrmem
      exact hr r hrmem
    · rw [append_to_parquet, if_neg h1, if_neg h2] at hrmem
      by_cases h3 : rows.filter (fun r => decide (r.url ∉ store.map Rec.url)) = []
      · simp only [h3, if_pos] at hrmem
        exact hs r hrmem
      · simp only [if_neg h3] at hrmem
        rcases List.mem_append.1 hrmem with h' | h'
        · exact hs r h'
        · exact hr r (List.mem_of_mem_filter h')

theorem extractLoop_store_pres (env : Env) (c : String) (hdc : env.detail c = ⟨"", "", ""⟩) :
    ∀ (urls : List String) (batch store : List Rec) (k : Nat) (fetched : List String),
      (∀ r ∈ store, r.url ≠ c) → (∀ r ∈ batch, r.url ≠ c) →
      (∀ r ∈ (extractLoop env urls batch store k fetched).store, r.url ≠ c) ∧
      (∀ r ∈ (extractLoop env urls batch store k fetched).batch, r.url ≠ c)
  | [], batch, store, k, fetched, hs, hb => ⟨hs, hb⟩
  | u :: rest, batch, store, k, fetched, hs, hb => by
    rw [extractLoop_cons]
    split_ifs with h1 h2 h3
    · exact ⟨hs, hb⟩
    · have huc : u ≠ c := by
        intro he
        subst he
        rw [show extract_url_data env u = ⟨u, "", "", ""⟩ by
          simp [extract_url_data, hdc]] at h2
        simp at h2
      have hb2 : ∀ r ∈ batch ++ [extract_url_data env u], r.url ≠ c := by
        intro r hr
        rcases List.mem_append.1 hr with h' | h'
        · exact hb r h'
        · rw [List.mem_singleton] at h'
          subst h'
          exact huc
      exact extractLoop_store_pres env c hdc rest _ _ (k + 1) (fetched ++ [u])
        (append_to_parquet_pres _ _ _ hs hb2) (by intro r hr; simp at hr)
    · have huc : u ≠ c := by
        intro he
        subst he
        rw [show extract_url_data env u = ⟨u, "", "", ""⟩ by
          simp [extract_url_data, hdc]] at h2
        simp at h2
      have hb2 : ∀ r ∈ batch ++ [extract_url_data env u], r.url ≠ c := by
        intro r hr
        rcases List.mem_append.1 hr with h' | h'
        · exact hb r h'
        · rw [List.mem_singleton] at h'
          subst h'
          exact huc
      exact extractLoop_store_pres env c hdc rest _ _ (k + 1) (fetched ++ [u]) hs hb2
    · exact extractLoop_store_pres env c hdc rest _ _ (k + 1) (fetched ++ [u]) hs hb

theorem load_some_encode (x : Int) : load_page_checkpoint (some (encodeCkptChars x)) = x := by
  simp [load_page_checkpoint, parseCkptChars_encode]

theorem runLoop_store_pres (env : Env) (proc : List String) (c : String)
    (hdc : env.detail c = ⟨"", "", ""⟩) :
    ∀ (fuel : Nat) (all : List String) (store : List Rec) (ck : Option (List Char)) (k : Nat)
      (att : List Int) (fet : List String) (res : RunResult),
      runLoop env proc all store ck k att fet fuel = some res →
      (∀ r ∈ store, r.url ≠ c) → ∀ r ∈ res.store, r.url ≠ c
  | 0, all, store, ck, k, att, fet, res, h, hs => by simp [runLoop] at h
  | fuel + 1, all, store, ck, k, att, fet, res, h, hs => by
    simp only [runLoop] at h
    by_cases h1 : env.clock k > MAX_RUNTIME_SECONDS - 600
    · rw [if_pos h1] at h
      obtain rfl := Option.some.inj h
      exact hs
    · rw [if_neg h1] at h
      by_cases h2 : max (load_page_checkpoint ck + 1) 1 > MAX_PAGES
      · rw [if_pos h2] at h
        obtain rfl := Option.some.inj h
        exact hs
      · rw [if_neg h2] at h
        set cl := collectLoop env proc all [] (max (load_page_checkpoint ck + 1) 1) 10 ck (k + 1) []
          with hcl
        by_cases h3 : cl.batchUrls = []
        · rw [if_pos h3] at h
          exact runLoop_store_pres env proc c hdc fuel _ store _ _ _ _ res h hs
        · rw [if_neg h3] at h
          set e := extractLoop env cl.batchUrls [] store cl.k fet with he
          have hpres := extractLoop_store_pres env c hdc cl.batchUrls [] store cl.k fet hs
            (by intro r hr; simp at hr)
          rw [← he] at hpres
          have hstore2 :
              ∀ r ∈ (if e.batch = [] then e.store else append_to_parquet e.store e.batch),
                r.url ≠ c := by
            split_ifs
            · exact hpres.1
            · exact append_to_parquet_pres _ _ _ hpres.1 hpres.2
          by_cases h4 : env.clock e.k > MAX_RUNTIME_SECONDS - 600
          · rw [if_pos h4] at h
            obtain rfl := Option.some.inj h
            exact hstore2
          · rw [if_neg h4] at h
            exact runLoop_store_pres env proc c hdc fuel _ _ _ _ _ _ res h hstore2

theorem runLoop_no_refetch (env : Env) (proc : List String) (u : String) (hu : u ∈ proc) :
    ∀ (fuel : Nat) (all : List String) (store : List Rec) (ck : Option (List Char)) (k : Nat)
      (att : List Int) (fet : List String) (res : RunResult),
      runLoop env proc all store ck k att fet fuel = some res →
      u ∉ fet → u ∉ res.fetched
  | 0, all, store, ck, k, att, fet, res, h, hf => by simp [runLoop] at h
  | fuel + 1, all, store, ck, k, att, fet, res, h, hf => by
    simp only [runLoop] at h
    by_cases h1 : env.clock k > MAX_RUNTIME_SECONDS - 600
    · rw [if_pos h1] at h
      obtain rfl := Option.some.inj h
      exact hf
    · rw [if_neg h1] at h
      by_cases h2 : max (load_page_checkpoint ck + 1) 1 > MAX_PAGES
      · rw [if_pos h2] at h
        obtain rfl := Option.some.inj h
        exact hf
      · rw [if_neg h2] at h
        set cl := collectLoop env proc all [] (max (load_page_checkpoint ck + 1) 1) 10 ck (k + 1) []
          with hcl
        by_cases h3 : cl.batchUrls = []
        · rw [if_pos h3] at h
          exact runLoop_no_refetch env proc u hu fuel _ store _ _ _ _ res h hf
        · rw [if_neg h3] at h
          set e := extractLoop env cl.batchUrls [] store cl.k fet with he
          have hf2 : u ∉ e.fetched := by
            intro hmem
            rw [he] at hmem
            rcases extractLoop_fetched_mem env cl.batchUrls [] store cl.k fet u hmem with h' | h'
            · exact hf h'
            · rw [hcl] at h'
              rcases collectLoop_batch_mem env proc all 10 [] _ ck (k + 1) [] u h' with h'' | h''
              · simp at h''
              · exact h''.1 hu
          by_cases h4 : env.clock e.k > MAX_RUNTIME_SECONDS - 600
          · rw [if_pos h4] at h
            obtain rfl := Option.some.inj h
            exact hf2
          · rw [if_neg h4] at h
            exact runLoop_no_refetch env proc u hu fuel _ _ _ _ _ _ res h hf2

theorem runLoop_fetched_nodup (env : Env) (proc : List String) :
    ∀ (fuel : Nat) (all : List String) (store : List Rec) (ck : Option (List Char)) (k : Nat)
      (att : List Int) (fet : List String) (res : RunResult),
      runLoop env proc all store ck k att fet fuel = some res →
      fet.Nodup → all.Nodup → (∀ v ∈ fet, v ∈ all) →
      res.fetched.Nodup
  | 0, all, store, ck, k, att, fet, res, h, hfn, han, hsub => by simp [runLoop] at h
  | fuel + 1, all, store, ck, k, att, fet, res, h, hfn, han, hsub => by
    simp only [runLoop] at h
    by_cases h1 : env.clock k > MAX_RUNTIME_SECONDS - 600
    · rw [if_pos h1] at h
      obtain rfl := Option.some.inj h
      exact hfn
    · rw [if_neg h1] at h
      by_cases h2 : max (load_page_checkpoint ck + 1) 1 > MAX_PAGES
      · rw [if_pos h2] at h
        obtain rfl := Option.some.inj h
        exact hfn
      · rw [if_neg h2] at h
        set cl := collectLoop env proc all [] (max (load_page_checkpoint ck + 1) 1) 10 ck (k + 1) []
          with hcl
        have hbn : cl.batchUrls.Nodup := by
          rw [hcl]
          exact collectLoop_batch_nodup env proc all 10 [] _ ck (k + 1) [] List.nodup_nil
        have hbd : ∀ v ∈ cl.batchUrls, v ∉ all := by
          intro v hv
          rw [hcl] at hv
          rcases collectLoop_batch_mem env proc all 10 [] _ ck (k + 1) [] v hv with h' | h'
          · simp at h'
          · exact h'.2
        have hall2 : (all ++ cl.batchUrls).Nodup :=
          han.append hbn (fun a ha hab => hbd a hab ha)
        have hsub2 : ∀ v ∈ fet, v ∈ all ++ cl.batchUrls :=
          fun v hv => List.mem_append.2 (Or.inl (hsub v hv))
        by_cases h3 : cl.batchUrls = []
        · rw [if_pos h3] at h
          exact runLoop_fetched_nodup env proc fuel _ store _ _ _ _ res h hfn hall2 hsub2
        · rw [if_neg h3] at h
          set e := extractLoop env cl.batchUrls [] store cl.k fet with he
          have hfd : ∀ v ∈ cl.batchUrls, v ∉ fet := fun v hv hvf => hbd v hv (hsub v hvf)
          have hefn : e.fetched.Nodup := by
            rw [he]
            exact extractLoop_fetched_nodup env cl.batchUrls [] store cl.k fet hfn hbn hfd
          have hesub : ∀ v ∈ e.fetched, v ∈ all ++ cl.batchUrls := by
            intro v hv
            rw [he] at hv
            rcases extractLoop_fetched_mem env cl.batchUrls [] store cl.k fet v hv with h' | h'
            · exact List.mem_append.2 (Or.inl (hsub v h'))
            · exact List.mem_append.2 (Or.inr h')
          by_cases h4 : env.clock e.k > MAX_RUNTIME_SECONDS - 600
          · rw [if_pos h4] at h
            obtain rfl := Option.some.inj h
            exact hefn
          · rw [if_neg h4] at h
            exact runLoop_fetched_nodup env proc fuel _ _ _ _ _ _ res h hefn hall2 hesub

theorem runLoop_ckpt_inv (env : Env) (proc : List String) (v0 : Int) (hv0 : 0 ≤ v0) :
    ∀ (fuel : Nat) (all : List String) (store : List Rec) (ck : Option (List Char)) (k : Nat)
      (att : List Int) (fet : List String) (res : RunResult),
      runLoop env proc all store ck k att fet fuel = some res →
      v0 ≤ load_page_checkpoint ck →
      (att = [] → load_page_checkpoint ck = v0) →
      (att ≠ [] → load_page_checkpoint ck ∈ att ∧ ∀ a ∈ att, a ≤ load_page_checkpoint ck) →
      v0 ≤ load_page_checkpoint res.ckpt ∧
        (res.attempted = [] → load_page_checkpoint res.ckpt = v0) ∧
        (res.attempted ≠ [] → load_page_checkpoint res.ckpt ∈ res.attempted ∧
          ∀ a ∈ res.attempted, a ≤ load_page_checkpoint res.ckpt)
  | 0, all, store, ck, k, att, fet, res, h, hle, hemp, hne => by simp [runLoop] at h
  | fuel + 1, all, store, ck, k, att, fet, res, h, hle, hemp, hne => by
    simp only [runLoop] at h
    by_cases h1 : env.clock k > MAX_RUNTIME_SECONDS - 600
    · rw [if_pos h1] at h
      obtain rfl := Option.some.inj h
      exact ⟨hle, hemp, hne⟩
    · rw [if_neg h1] at h
      by_cases h2 : max (load_page_checkpoint ck + 1) 1 > MAX_PAGES
      · rw [if_pos h2] at h
        obtain rfl := Option.some.inj h
        exact ⟨hle, hemp, hne⟩
      · rw [if_neg h2] at h
        have hcur : max (load_page_checkpoint ck + 1) 1 = load_page_checkpoint ck + 1 :=
          max_eq_left (by omega)
        rw [hcur] at h
        set w := load_page_checkpoint ck with hw
        obtain ⟨m, hm, hpage, hatt, hck⟩ :=
          collectLoop_shape env proc all 10 [] (w + 1) ck (k + 1) []
        set cl := collectLoop env proc all [] (w + 1) 10 ck (k + 1) [] with hcl
        simp only [List.nil_append] at hatt
        have hbound_att : ∀ a ∈ att, a ≤ w := by
          intro a ha
          by_cases hae : att = []
          · rw [hae] at ha; simp at ha
          · exact (hne hae).2 a ha
        have hattmem : ∀ a ∈ cl.attempted, a ≤ w + (m : Int) ∧ w + 1 ≤ a := by
          intro a ha
          rw [hatt] at ha
          obtain ⟨i, hi, rfl⟩ := List.mem_map.1 ha
          rw [List.mem_range] at hi
          constructor <;> omega
        have hmax_mem : m ≠ 0 → (w + (m : Int)) ∈ cl.attempted := by
          intro hm0
          rw [hatt]
          refine List.mem_map.2 ⟨m - 1, List.mem_range.2 (by omega), ?_⟩
          omega
        have hle2 : v0 ≤ w + (m : Int) := by
          have : (0 : Int) ≤ (m : Int) := Int.ofNat_nonneg m
          omega
        have hemp2 : att ++ cl.attempted = [] → w + (m : Int) = v0 := by
          intro h0
          rw [List.append_eq_nil] at h0
          have hm0 : m = 0 := by
            have h2' := h0.2
            rw [hatt] at h2'
            exact List.range_eq_nil.1 (List.map_eq_nil_iff.1 h2')
          have := hemp h0.1
          rw [hm0]
          push_cast
          omega
        have hne2 : att ++ cl.attempted ≠ [] →
            (w + (m : Int)) ∈ att ++ cl.attempted ∧
              ∀ a ∈ att ++ cl.attempted, a ≤ w + (m : Int) := by
          intro h0
          by_cases hm0 : m = 0
          · have hclnil : cl.attempted = [] := by rw [hatt, hm0]; simp
            rw [hclnil, List.append_nil] at h0 ⊢
            have hn := hne h0
            subst hm0
            constructor
            · simpa using hn.1
            · intro a ha
              have := hn.2 a ha
              push_cast
              omega
          · constructor
            · exact List.mem_append.2 (Or.inr (hmax_mem hm0))
            · intro a ha
              have : (0 : Int) ≤ (m : Int) := Int.ofNat_nonneg m
              rcases List.mem_append.1 ha with h' | h'
              · have := hbound_att a h'
                omega
              · exact (hattmem a h').1
        by_cases h3 : cl.batchUrls = []
        · rw [if_pos h3] at h
          have hload2 : load_page_checkpoint
              (if cl.page ≤ MAX_PAGES then save_page_checkpoint (cl.page - 1) else cl.ckpt) =
                w + (m : Int) := by
            split_ifs with hpg
            · rw [load_save_roundtrip, hpage]
              ring
            · rw [hck]
              split_ifs with hm0
              · rw [← hw, hm0]
                push_cast
                ring
              · rw [load_some_encode]
                ring
          exact runLoop_ckpt_inv env proc v0 hv0 fuel _ store _ cl.k (att ++ cl.attempted) fet
            res h (by rw [hload2]; exact hle2) (fun h0 => by rw [hload2]; exact hemp2 h0)
            (fun h0 => by rw [hload2]; exact hne2 h0)
        · rw [if_neg h3] at h
          set e := extractLoop env cl.batchUrls [] store cl.k fet with he
          have hload2 : load_page_checkpoint cl.ckpt = w + (m : Int) := by
            rw [hck]
            split_ifs with hm0
            · rw [← hw, hm0]
              push_cast
              ring
            · rw [load_some_encode]
              ring
          by_cases h4 : env.clock e.k > MAX_RUNTIME_SECONDS - 600
          · rw [if_pos h4] at h
            obtain rfl := Option.some.inj h
            refine ⟨?_, ?_, ?_⟩
            · show v0 ≤ load_page_checkpoint cl.ckpt
              rw [hload2]
              exact hle2
            · show att ++ cl.attempted = [] → load_page_checkpoint cl.ckpt = v0
              intro h0
              rw [hload2]
              exact hemp2 h0
            · show att ++ cl.attempted ≠ [] →
                load_page_checkpoint cl.ckpt ∈ att ++ cl.attempted ∧
                  ∀ a ∈ att ++ cl.attempted, a ≤ load_page_checkpoint cl.ckpt
              intro h0
              rw [hload2]
              exact hne2 h0
          · rw [if_neg h4] at h
            exact runLoop_ckpt_inv env proc v0 hv0 fuel _ _ cl.ckpt (e.k + 1)
              (att ++ cl.attempted) e.fetched res h (by rw [hload2]; exact hle2)
              (fun h0 => by rw [hload2]; exact hemp2 h0)
              (fun h0 => by rw [hload2]; exact hne2 h0)

/-! ### Orchestrator claims -/

/-- C1, counterexample: with every detail fetch exhausting its retries
(the env returns the all-empty triple), the run for `envE` collects and
detail-fetches `cURL` (it appears in `fetched`), completes without
aborting, but the Output Store ends empty — the claim that the store gains
a record with key `cURL` and empty content fields is false: line 521 of
crawler.py discards records with no content instead of appending them. -/
theorem c1_counterexample :
    run_once envE [] none 5 = some c1res ∧ cURL ∈ c1res.fetched ∧ c1res.store = [] :=
  ⟨by decide, by decide, rfl⟩

/-- C1, amended: when the Detail Extractor exhausts all retries for a URL
`c` (all three content fields empty), the run does not abort, but the
record is discarded as a failed extraction: if no record keyed `c` was in
the store before the run, none is in it after the run. -/
theorem c1_amended_no_record (env : Env) (store0 : List Rec) (ck0 : Option (List Char))
    (fuel : Nat) (res : RunResult) (c : String)
    (h : run_once env store0 ck0 fuel = some res)
    (hdc : env.detail c = ⟨"", "", ""⟩)
    (hc : c ∉ store0.map Rec.url) :
    c ∉ res.store.map Rec.url := by
  intro hmem
  obtain ⟨r, hr, hru⟩ := List.mem_map.1 hmem
  exact runLoop_store_pres env (load_processed_urls store0) c hdc fuel [] store0 ck0 0 [] [] res h
    (fun r' hr' heq => hc (heq ▸ List.mem_map_of_mem Rec.url hr')) r hr hru

/-- C1, witness for the amended theorem at the counterexample run. -/
theorem c1_amended_no_record_witness : cURL ∉ c1res.store.map Rec.url :=
  c1_amended_no_record envE [] none 5 c1res cURL (by decide) rfl (by decide)

/-- C4, counterexample: in an environment whose pages each render two
fresh-looking anchors and whose clock never advances, the collection phase
visits all ten pages `1..10` even though the pending-URL count already
reached 2 after page 1: no per-run URL cap (`maxURLsPerRun`) exists in the
code, so reaching any such cap does not stop collection, refuting the
claim's four-condition characterisation. -/
theorem c4_counterexample :
    collectLoop envMany [] [] [] 1 10 none 0 [] =
      ⟨[aURL, bURL], 11, some (encodeCkptChars 10), 10, [1, 2, 3, 4, 5, 6, 7, 8, 9, 10]⟩ := by
  decide

/-- C4, amended: the collection phase stops only on three conditions — ten
pages collected this phase, page cursor beyond MAX_PAGES, or the deadline
margin tripping.  With the deadline never tripping and ten pages available
the phase link-extracts exactly pages `p..p+9`, whatever number of URLs
the pages yield. -/
theorem c4_amended_three_conditions (env : Env) (proc all : List String)
    (ck : Option (List Char)) (k : Nat) (p : Int)
    (hclk : ∀ j, env.clock j ≤ MAX_RUNTIME_SECONDS - 600)
    (hp : p + 10 ≤ MAX_PAGES + 1) :
    (collectLoop env proc all [] p 10 ck k []).attempted =
      (List.range 10).map (fun i : Nat => p + (i : Int)) := by
  simpa using collectLoop_attempted_full env proc all hclk 10 [] p ck k [] hp

/-- C4, witness for the amended theorem at the counterexample environment. -/
theorem c4_amended_three_conditions_witness :
    (collectLoop envMany [] [] [] 1 10 none 0 []).attempted =
      (List.range 10).map (fun i : Nat => (1 : Int) + (i : Int)) :=
  c4_amended_three_conditions envMany [] [] none 0 1
    (fun _ => by norm_num [envMany, MAX_RUNTIME_SECONDS])
    (by norm_num [MAX_PAGES])

/-- C6, confirmed (for the non-negative checkpoints the system itself
writes, per the spec's data model): across a completed run the checkpoint
value never decreases; if no page was link-extracted it is unchanged, and
otherwise it equals the highest page index for which link extraction was
attempted and returned (empty results included). -/
theorem c6_checkpoint_monotone (env : Env) (store0 : List Rec) (ck0 : Option (List Char))
    (fuel : Nat) (res : RunResult)
    (h : run_once env store0 ck0 fuel = some res)
    (h0 : 0 ≤ load_page_checkpoint ck0) :
    load_page_checkpoint ck0 ≤ load_page_checkpoint res.ckpt ∧
    (res.attempted = [] → load_page_checkpoint res.ckpt = load_page_checkpoint ck0) ∧
    (res.attempted ≠ [] → load_page_checkpoint res.ckpt ∈ res.attempted ∧
      ∀ a ∈ res.attempted, a ≤ load_page_checkpoint res.ckpt) :=
  runLoop_ckpt_inv env (load_processed_urls store0) (load_page_checkpoint ck0) h0 fuel [] store0
    ck0 0 [] [] res h le_rfl (fun _ => rfl) (fun hne => absurd rfl hne)

/-- C6, witness at the `envE` run: the checkpoint rises from 0 (absent
file) to the single attempted page. -/
theorem c6_checkpoint_monotone_witness :
    load_page_checkpoint (none : Option (List Char)) ≤ load_page_checkpoint c1res.ckpt :=
  (c6_checkpoint_monotone envE [] none 5 c1res (by decide) (by decide)).1

/-- C7, confirmed: a URL present in the Output Store at run start (a member
of the loaded processed set) is never passed to the Detail Extractor
during that run — the collection filter drops it before it can enter any
pending batch. -/
theorem c7_no_redundant_fetch (env : Env) (store0 : List Rec) (ck0 : Option (List Char))
    (fuel : Nat) (res : RunResult) (u : String)
    (h : run_once env store0 ck0 fuel = some res)
    (hu : u ∈ load_processed_urls store0) :
    u ∉ res.fetched :=
  runLoop_no_refetch env (load_processed_urls store0) u hu fuel [] store0 ck0 0 [] [] res h
    (by simp)

/-- C7, witness: with `cURL` already stored, the `envE` run fetches
nothing. -/
theorem c7_no_redundant_fetch_witness : cURL ∉ c7res.fetched :=
  c7_no_redundant_fetch envE [recC] none 5 c7res cURL (by decide) (by decide)

/-- C8, counterexample: two consecutive runs over the same durable stores.
In the first run `cURL` is detail-fetched, its extraction yields no
content, so no record is flushed; the second run, resuming from the
first run's stores, meets `cURL` again on the next listing page and
detail-fetches it a second time — refuting the claim that no URL is ever
sent to the Detail Extractor twice across runs. -/
theorem c8_counterexample :
    run_once envE [] none 5 = some c1res ∧ cURL ∈ c1res.fetched ∧
    run_once envE c1res.store c1res.ckpt 5 = some c2res ∧ cURL ∈ c2res.fetched :=
  ⟨by decide, by decide, by decide, by decide⟩

/-- C8, amended: within a single run no URL is detail-fetched twice (the
in-run seen set guarantees the fetched list is duplicate-free); across
runs the protection holds only for URLs whose records were flushed to the
Output Store (theorem for C7), not for URLs whose extraction produced no
stored record. -/
theorem c8_amended_no_refetch_within_run (env : Env) (store0 : List Rec)
    (ck0 : Option (List Char)) (fuel : Nat) (res : RunResult)
    (h : run_once env store0 ck0 fuel = some res) :
    res.fetched.Nodup :=
  runLoop_fetched_nodup env (load_processed_urls store0) fuel [] store0 ck0 0 [] [] res h
    List.nodup_nil List.nodup_nil (by simp)

/-- C8, witness for the amended theorem at the counterexample's first run. -/
theorem c8_amended_no_refetch_within_run_witness : c1res.fetched.Nodup :=
  c8_amended_no_refetch_within_run envE [] none 5 c1res (by decide)
